import Mathlib

/-!
Verification of the QuickNote timer component (src/src/App.jsx) against its
specification.  The component's pure helpers and event handlers are embedded
as Lean functions; the browser collaborators (localStorage, JSON.parse,
Date.now, Date#toDateString) are passed in as explicit inputs, since they
are platform services, not code of this repository.
-/

namespace QuickNote

/-- JS `String.prototype.padStart(n, c)` for a single-character pad string:
prepend copies of `c` until the length is at least `n`. -/
def padStart (s : String) (n : Nat) (c : Char) : String :=
  String.mk (List.replicate (n - s.length) c) ++ s

/-- `formatTime` from App.jsx lines 4-9: hours are `seconds / 3600` with no
upper modulus, minutes are `(seconds % 3600) / 60`, seconds are
`seconds % 60`, each rendered in decimal and padded to two digits. -/
def formatTime (seconds : Nat) : String :=
  let hrs := padStart (toString (seconds / 3600)) 2 '0'
  let mins := padStart (toString (seconds % 3600 / 60)) 2 '0'
  let secs := padStart (toString (seconds % 60)) 2 '0'
  hrs ++ ":" ++ mins ++ ":" ++ secs

/-- The formatting helper as the specification words it: `HH` is
`floor(s/3600)` zero-padded to two digits with no modulus, `MM` is the
minutes within the hour, `SS` the seconds within the minute. -/
def formatTimeSpec (seconds : Nat) : String :=
  padStart (toString (seconds / 3600)) 2 '0' ++ ":" ++
    padStart (toString (seconds / 60 % 60)) 2 '0' ++ ":" ++
    padStart (toString (seconds % 60)) 2 '0'

/-- A saved session record (App.jsx lines 87-92).  Ids come from
`Date.now()` (a millisecond count), durations are whole seconds, and
`createdAt` holds the ISO timestamp string. -/
structure Session where
  id : Nat
  note : String
  durationSeconds : Nat
  createdAt : String
  deriving DecidableEq, Repr

/-- The component state touched by the handlers: the timer's second count,
the running flag, the note input, and the saved-session list. -/
structure AppState where
  seconds : Nat
  isRunning : Bool
  note : String
  sessions : List Session
  deriving DecidableEq, Repr

/-- A whitespace character as JS `String.prototype.trim` strips it
(restricted to the ASCII range that can occur in the note input). -/
def isJsWhitespace (c : Char) : Bool :=
  c = ' ' || c = '\t' || c = '\n' || c = '\r' || c = '\x0b' || c = '\x0c'

/-- JS `String.prototype.trim`: drop leading and trailing whitespace. -/
def jsTrim (s : String) : String :=
  String.mk (((s.data.dropWhile isJsWhitespace).reverse.dropWhile isJsWhitespace).reverse)

/-- `handleSaveSession` (App.jsx lines 82-98).  `now` is `Date.now()` and
`nowIso` is `new Date().toISOString()`, both platform inputs.  A zero
timer is a silent no-op; otherwise the note is trimmed and an empty
result falls back to the literal `"Untitled session"` (JS `||` on the
falsy empty string), and the new session is prepended. -/
def handleSaveSession (now : Nat) (nowIso : String) (st : AppState) : AppState :=
  if st.seconds = 0 then st
  else
    let cleaned := jsTrim st.note
    { seconds := 0
      isRunning := false
      note := ""
      sessions :=
        { id := now
          note := if cleaned = "" then "Untitled session" else cleaned
          durationSeconds := st.seconds
          createdAt := nowIso } :: st.sessions }

/-- `handleDeleteSession` (App.jsx lines 100-102): keep exactly the
sessions whose id differs from the argument. -/
def handleDeleteSession (i : Nat) (st : AppState) : AppState :=
  { st with sessions := st.sessions.filter fun s => s.id != i }

/-- One entry of the `taskStatsMap` accumulator object (App.jsx lines
118-130): the object is modelled as an insertion-ordered association
list, `key` being the object property name (the lowercased note) and
`name`, `totalSeconds`, `count` the stored record. -/
structure AccEntry where
  key : String
  name : String
  totalSeconds : Nat
  count : Nat
  deriving DecidableEq, Repr

/-- One step of the `reduce` body: if no entry with this key exists, a
fresh `\x7bname, totalSeconds: 0, count: 0\x7d` record is created at the end of
the object, then the duration and count are added onto the entry. -/
def bump (key name : String) (dur : Nat) : List AccEntry → List AccEntry
  | [] => [⟨key, name, dur, 1⟩]
  | e :: rest =>
    if e.key = key then
      { e with totalSeconds := e.totalSeconds + dur, count := e.count + 1 } :: rest
    else
      e :: bump key name dur rest

/-- JS `String.prototype.toLowerCase`, characterwise (the notes under
consideration are plain text; locale-dependent mappings do not arise). -/
def jsToLower (s : String) : String :=
  String.mk (s.data.map Char.toLower)

/-- `taskStatsMap` (App.jsx lines 118-130): fold the session list,
grouping by `session.note.toLowerCase()`. -/
def taskStatsMap (sessions : List Session) : List AccEntry :=
  sessions.foldl (fun acc s => bump (jsToLower s.note) s.note s.durationSeconds acc) []

/-- One element of `taskStats` (App.jsx lines 132-135): the accumulator
record spread together with the real-valued `averageSeconds`. -/
structure TaskStat where
  name : String
  totalSeconds : Nat
  count : Nat
  averageSeconds : ℚ
  deriving DecidableEq, Repr

/-- `taskStats` (App.jsx lines 132-135): `Object.values` of the
accumulator in insertion order, each entry extended with
`averageSeconds = totalSeconds / count`. -/
def taskStats (sessions : List Session) : List TaskStat :=
  (taskStatsMap sessions).map fun t =>
    ⟨t.name, t.totalSeconds, t.count, (t.totalSeconds : ℚ) / (t.count : ℚ)⟩

/-- First entry of the accumulator with the given key, i.e. the object
property lookup `acc[key]`. -/
def lookupKey (acc : List AccEntry) (k : String) : Option AccEntry :=
  acc.find? fun e => e.key == k

/-- Specification value: the summed duration of the sessions whose
lowercased note equals `k`. -/
def keyTotal (sessions : List Session) (k : String) : Nat :=
  ((sessions.filter fun s => jsToLower s.note == k).map Session.durationSeconds).sum

/-- Specification value: the number of sessions whose lowercased note
equals `k`. -/
def keyCount (sessions : List Session) (k : String) : Nat :=
  (sessions.filter fun s => jsToLower s.note == k).length

/-- Specification value: the original-case note of the first session in
list order whose lowercased note equals `k`. -/
def keyName (sessions : List Session) (k : String) : Option String :=
  (sessions.find? fun s => jsToLower s.note == k).map Session.note

/-- The property names of the accumulator object, in insertion order. -/
def accKeys (acc : List AccEntry) : List String :=
  acc.map AccEntry.key

/-- `todaysSessions` (App.jsx lines 138-141): `dateOf` models
`createdAt ↦ new Date(createdAt).toDateString()` and `todayStr` models
`new Date().toDateString()`, both platform inputs. -/
def todaysSessions (dateOf : String → String) (todayStr : String)
    (sessions : List Session) : List Session :=
  sessions.filter fun s => dateOf s.createdAt == todayStr

/-- `totalSecondsToday` (App.jsx lines 142-145): summed durations of
today's sessions. -/
def totalSecondsToday (dateOf : String → String) (todayStr : String)
    (sessions : List Session) : Nat :=
  ((todaysSessions dateOf todayStr sessions).map Session.durationSeconds).sum

/-- `tasksTodayCount` (App.jsx lines 146-148): the size of the `Set` of
lowercased notes of today's sessions, i.e. the number of distinct keys. -/
def tasksTodayCount (dateOf : String → String) (todayStr : String)
    (sessions : List Session) : Nat :=
  ((todaysSessions dateOf todayStr sessions).map fun s => jsToLower s.note).dedup.length

/-- A JavaScript value as `JSON.parse` can produce it.  Numbers are kept
as integers here; the claims under verification never compute with a
parsed number, so the float representation is irrelevant to them. -/
inductive Json where
  | null : Json
  | bool (b : Bool) : Json
  | num (n : Int) : Json
  | str (s : String) : Json
  | arr (elems : List Json) : Json
  | obj (fields : List (String × Json)) : Json

/-- Outcome of a call to the platform's `JSON.parse`: either a value or a
thrown `SyntaxError`.  The parser itself is a platform service, so it is
passed to the load code as a function `String → ParseOutcome`. -/
inductive ParseOutcome where
  | ok (j : Json) : ParseOutcome
  | err : ParseOutcome

/-- Outcome of a `localStorage.getItem` call as the load effect can
observe it: the key is absent (`null`, falsy), the store throws, or a
string value is returned. -/
inductive ReadResult where
  | absent : ReadResult
  | throws : ReadResult
  | val (s : String) : ReadResult
  deriving DecidableEq

/-- The two state cells the load effect (App.jsx lines 19-33) writes:
the theme string and whatever `JSON.parse` returned for the sessions
key.  The fresh (first-render) values are `"dark"` and the empty array,
matching the `useState` initialisers. -/
structure LoadedState where
  theme : String
  sessionsJ : Json

/-- The `useState` initial values: theme `"dark"`, sessions `[]`. -/
def freshLoadedState : LoadedState :=
  ⟨"dark", Json.arr []⟩

/-- The sessions half of the load effect (App.jsx lines 26-29): a falsy
stored value (absent key or empty string) is skipped, a parse error is
caught by the surrounding `try` leaving the state as it was, and a
parsed value is installed verbatim by `setSessions`. -/
def loadSessionsInto (sessionsRead : ReadResult) (parse : String → ParseOutcome)
    (st : LoadedState) : LoadedState :=
  match sessionsRead with
  | .throws => st
  | .absent => st
  | .val s =>
    if s = "" then st
    else
      match parse s with
      | .ok j => { st with sessionsJ := j }
      | .err => st

/-- The whole load effect (App.jsx lines 19-33).  The theme read comes
first inside the single `try`: if it throws, the sessions read never
happens; a stored theme other than `"light"`/`"dark"` is ignored.  A
failure in the sessions half cannot undo the already-applied theme
update. -/
def initialLoad (themeRead sessionsRead : ReadResult)
    (parse : String → ParseOutcome) (st : LoadedState) : LoadedState :=
  match themeRead with
  | .throws => st
  | .absent => loadSessionsInto sessionsRead parse st
  | .val s =>
    loadSessionsInto sessionsRead parse
      (if s = "light" ∨ s = "dark" then { st with theme := s } else st)

/-- The synchronous key-value store backing persistence
(`window.localStorage`), modelled as a partial map from keys to string
values. -/
def Store : Type :=
  String → Option String

/-- `localStorage.setItem`. -/
def setItem (store : Store) (k v : String) : Store :=
  fun q => if q = k then some v else store q

/-- `localStorage.removeItem`. -/
def removeItem (store : Store) (k : String) : Store :=
  fun q => if q = k then none else store q

/-- A store with no keys. -/
def emptyStore : Store :=
  fun _ => none

/-- `handleClearAll` (App.jsx lines 104-111): set the session list to
`[]` and remove the persisted sessions key. -/
def handleClearAll (st : AppState) (store : Store) : AppState × Store :=
  ({ st with sessions := [] }, removeItem store "quicknote_sessions")

/-- Reading the sessions key of a (non-throwing) store. -/
def readSessionsKey (store : Store) : ReadResult :=
  match store "quicknote_sessions" with
  | none => ReadResult.absent
  | some s => ReadResult.val s

/-- The session list a reload observes from a given store: run the load
effect's sessions half on the fresh state. -/
def reloadSessions (store : Store) (parse : String → ParseOutcome) : Json :=
  (loadSessionsInto (readSessionsKey store) parse freshLoadedState).sessionsJ

/-- Escaping of one character inside a JSON string literal, as
`JSON.stringify` performs it for the characters that can occur here. -/
def escapeChar (c : Char) : String :=
  if c = '"' then "\\\""
  else if c = '\\' then "\\\\"
  else if c = '\n' then "\\n"
  else if c = '\t' then "\\t"
  else if c = '\r' then "\\r"
  else String.singleton c

/-- A JSON string literal for `s`. -/
def quoteString (s : String) : String :=
  "\"" ++ String.join (s.data.map escapeChar) ++ "\""

/-- `JSON.stringify` of one session object, fields in insertion order
(id, note, durationSeconds, createdAt). -/
def stringifySession (s : Session) : String :=
  "\x7b\"id\":" ++ toString s.id ++ ",\"note\":" ++ quoteString s.note ++
    ",\"durationSeconds\":" ++ toString s.durationSeconds ++
    ",\"createdAt\":" ++ quoteString s.createdAt ++ "\x7d"

/-- `JSON.stringify` of the session array, as the persist effect
(App.jsx lines 47-56) writes it. -/
def stringifySessions (l : List Session) : String :=
  "[" ++ String.intercalate "," (l.map stringifySession) ++ "]"

/-- One operation against the persistence layer. -/
inductive StoreOp where
  | get (key : String) : StoreOp
  | set (key value : String) : StoreOp
  | remove (key : String) : StoreOp
  deriving DecidableEq, Repr

/-- The key an operation touches. -/
def StoreOp.key : StoreOp → String
  | .get k => k
  | .set k _ => k
  | .remove k => k

/-- The store operations of the load effect (App.jsx lines 21 and 26). -/
def initialLoadOps : List StoreOp :=
  [.get "quicknote_theme", .get "quicknote_sessions"]

/-- The store operation of the theme persist effect (App.jsx line 40). -/
def persistThemeOps (theme : String) : List StoreOp :=
  [.set "quicknote_theme" theme]

/-- The store operation of the sessions persist effect (App.jsx lines
49-52). -/
def persistSessionsOps (sessions : List Session) : List StoreOp :=
  [.set "quicknote_sessions" (stringifySessions sessions)]

/-- The store operation of `handleClearAll` (App.jsx line 107). -/
def clearAllStoreOps : List StoreOp :=
  [.remove "quicknote_sessions"]

/-- Every store call site of the component, for the current theme string
and session list: there are exactly five, across the two effects, the
load, and the clear-all handler. -/
def componentOps (theme : String) (sessions : List Session) : List StoreOp :=
  initialLoadOps ++ persistThemeOps theme ++ persistSessionsOps sessions ++ clearAllStoreOps

/-- `toggleTheme` (App.jsx lines 113-115). -/
def toggleThemeStr (t : String) : String :=
  if t = "dark" then "light" else "dark"

/-- The theme half of the load effect (App.jsx lines 21-24): only the
exact strings `"light"` and `"dark"` are accepted. -/
def loadTheme (stored : Option String) (cur : String) : String :=
  match stored with
  | some s => if s = "light" ∨ s = "dark" then s else cur
  | none => cur

/-- The theme strings the component can ever hold: the initial `"dark"`,
anything a validated load produces, and anything toggling produces. -/
inductive ThemeReachable : String → Prop where
  | init : ThemeReachable "dark"
  | load (stored : Option String) (t : String) :
      ThemeReachable t → ThemeReachable (loadTheme stored t)
  | toggle (t : String) : ThemeReachable t → ThemeReachable (toggleThemeStr t)

/-! ## Theorems -/

/-- C1 (amended): `formatTime` agrees everywhere with the spec's wording
(hours `floor(s/3600)` unbounded with no modulus, minutes within the
hour, seconds within the minute, each zero-padded to two digits), and
`formatTime 3661 = "01:01:01"`, `formatTime 59 = "00:00:59"`,
`formatTime (3600*30) = "30:00:00"`, and — for an hours field beyond two
digits — `formatTime (3600*720) = "720:00:00"`. -/
theorem formatTime_matches_spec :
    (∀ s : Nat, formatTime s = formatTimeSpec s)
    ∧ formatTime 3661 = "01:01:01"
    ∧ formatTime 59 = "00:00:59"
    ∧ formatTime (3600 * 30) = "30:00:00"
    ∧ formatTime (3600 * 720) = "720:00:00" := by
  refine ⟨fun s => ?_, by decide, by decide, by decide, by decide⟩
  have h : s % 3600 / 60 = s / 60 % 60 := by omega
  simp [formatTime, formatTimeSpec, h]

/-- C1 counterexample: the claim's third example is false — an input of
`3600 * 30` seconds is 30 hours, so `formatTime` renders `"30:00:00"`,
not `"720:00:00"`. -/
theorem formatTime_example_false :
    ¬ formatTime (3600 * 30) = "720:00:00" := by
  decide

/-- C3: with zero elapsed seconds, `handleSaveSession` creates no session
and leaves the entire state (session list included) unchanged, for every
note string and every clock input. -/
theorem save_zero_elapsed_noop (now : Nat) (nowIso : String) (st : AppState)
    (h : st.seconds = 0) : handleSaveSession now nowIso st = st := by
  simp [handleSaveSession, h]

theorem save_zero_elapsed_noop_witness :
    handleSaveSession 1000 "2024-01-01T00:00:00.000Z"
        ⟨0, false, "work", [⟨1, "a", 5, "t"⟩]⟩
      = ⟨0, false, "work", [⟨1, "a", 5, "t"⟩]⟩ :=
  save_zero_elapsed_noop 1000 "2024-01-01T00:00:00.000Z" ⟨0, false, "work", [⟨1, "a", 5, "t"⟩]⟩ rfl

/-- C4: with elapsed seconds at least 1, `handleSaveSession` prepends a
session whose note is the trimmed input when that is non-empty and
exactly `"Untitled session"` when the trimmed input is empty. -/
theorem save_creates_session (now : Nat) (nowIso : String) (st : AppState)
    (h : 1 ≤ st.seconds) :
    (handleSaveSession now nowIso st).sessions =
      { id := now
        note := if jsTrim st.note = "" then "Untitled session" else jsTrim st.note
        durationSeconds := st.seconds
        createdAt := nowIso } :: st.sessions := by
  have h0 : ¬ st.seconds = 0 := by omega
  simp [handleSaveSession, h0]

theorem save_creates_session_witness :
    (handleSaveSession 7 "z" ⟨5, true, "  ", []⟩).sessions
      = [⟨7, "Untitled session", 5, "z"⟩] := by
  rw [save_creates_session 7 "z" ⟨5, true, "  ", []⟩ (by decide)]
  decide

/-- C9: the code is wrong about the claimed id uniqueness — ids are the
raw `Date.now()` value, so two sessions saved within the same clock
millisecond (here both at `Date.now() = 1000`) receive the same id and
the session list carries a duplicate. -/
theorem same_tick_id_collision :
    ((handleSaveSession 1000 "t2"
        { handleSaveSession 1000 "t1" ⟨5, true, "alpha", []⟩ with
            seconds := 3 }).sessions.map Session.id) = [1000, 1000]
    ∧ ¬ (((handleSaveSession 1000 "t2"
        { handleSaveSession 1000 "t1" ⟨5, true, "alpha", []⟩ with
            seconds := 3 }).sessions.map Session.id).Nodup) := by
  decide

/-- C5 counterexample: with a matching entry present, deletion does not
always remove exactly one entry — on a list holding two sessions that
share id 1, `handleDeleteSession 1` removes both. -/
theorem delete_session_removes_two :
    (∃ s ∈ ([⟨1, "a", 5, "t"⟩, ⟨1, "b", 6, "u"⟩] : List Session), s.id = 1)
    ∧ ¬ ((handleDeleteSession 1
          ⟨0, false, "", [⟨1, "a", 5, "t"⟩, ⟨1, "b", 6, "u"⟩]⟩).sessions.length + 1
        = ([⟨1, "a", 5, "t"⟩, ⟨1, "b", 6, "u"⟩] : List Session).length) := by
  decide

theorem filter_ne_length_of_nodup :
    ∀ (l : List Session) (i : Nat), (l.map Session.id).Nodup →
      ∀ s ∈ l, s.id = i → (l.filter fun x => x.id != i).length + 1 = l.length := by
  intro l
  induction l with
  | nil =>
    intro i _ s hs
    simp at hs
  | cons a t ih =>
    intro i hnd s hs hsi
    have hnd' : a.id ∉ t.map Session.id ∧ (t.map Session.id).Nodup := by
      simpa [List.nodup_cons] using hnd
    rw [List.mem_cons] at hs
    rcases hs with hs | hs
    · subst hs
      have hallt : ∀ x ∈ t, (x.id != i) = true := by
        intro x hx
        have hne : x.id ≠ i := by
          intro he
          exact hnd'.1 (by
            rw [hsi, ← he]
            exact List.mem_map_of_mem Session.id hx)
        simpa [bne_iff_ne] using hne
      have hfa : (s.id != i) = false := by
        simp [bne_iff_ne, hsi]
      rw [List.filter_cons_of_neg (by simp [hfa]), List.filter_eq_self.mpr hallt]
      simp
    · have hai : a.id ≠ i := by
        intro he
        exact hnd'.1 (by
          rw [he, ← hsi]
          exact List.mem_map_of_mem Session.id hs)
      rw [List.filter_cons_of_pos (by simpa [bne_iff_ne] using hai)]
      simp only [List.length_cons]
      rw [ih i hnd'.2 s hs hsi]

/-- C5 (amended): `handleDeleteSession` removes every session whose id
matches — which is exactly one whenever the list's ids are pairwise
distinct — preserves the relative order of the remaining entries
(sublist), keeps every non-matching entry, and is a no-op when no entry
has the id. -/
theorem delete_session_spec (i : Nat) (st : AppState) :
    (handleDeleteSession i st).sessions.Sublist st.sessions
    ∧ (∀ s ∈ (handleDeleteSession i st).sessions, s.id ≠ i)
    ∧ (∀ s ∈ st.sessions, s.id ≠ i → s ∈ (handleDeleteSession i st).sessions)
    ∧ ((∀ s ∈ st.sessions, s.id ≠ i) → handleDeleteSession i st = st)
    ∧ ((st.sessions.map Session.id).Nodup →
        ∀ s ∈ st.sessions, s.id = i →
          (handleDeleteSession i st).sessions.length + 1 = st.sessions.length) := by
  refine ⟨List.filter_sublist st.sessions, ?_, ?_, ?_, ?_⟩
  · intro s hs
    have := List.of_mem_filter hs
    simpa [bne_iff_ne] using this
  · intro s hs hne
    exact List.mem_filter.mpr ⟨hs, by simpa [bne_iff_ne] using hne⟩
  · intro hall
    cases st with
    | mk sec run note sess =>
      simp only [handleDeleteSession, AppState.mk.injEq, true_and]
      exact List.filter_eq_self.mpr fun a ha => by simpa [bne_iff_ne] using hall a ha
  · intro hnd s hs hsi
    exact filter_ne_length_of_nodup st.sessions i hnd s hs hsi

theorem delete_session_spec_witness :
    (handleDeleteSession 2
        ⟨0, false, "", [⟨1, "a", 5, "t"⟩, ⟨2, "b", 6, "u"⟩, ⟨3, "c", 7, "v"⟩]⟩).sessions.length + 1
      = ([⟨1, "a", 5, "t"⟩, ⟨2, "b", 6, "u"⟩, ⟨3, "c", 7, "v"⟩] : List Session).length :=
  (delete_session_spec 2
      ⟨0, false, "", [⟨1, "a", 5, "t"⟩, ⟨2, "b", 6, "u"⟩, ⟨3, "c", 7, "v"⟩]⟩).2.2.2.2
    (by decide) ⟨2, "b", 6, "u"⟩ (by decide) (by decide)

theorem lookupKey_cons (e : AccEntry) (rest : List AccEntry) (k : String) :
    lookupKey (e :: rest) k = if e.key = k then some e else lookupKey rest k := by
  by_cases h : e.key = k
  · rw [lookupKey, List.find?_cons_of_pos _ (by simp [h]), if_pos h]
  · rw [lookupKey, List.find?_cons_of_neg _ (by simp [h]), if_neg h]
    rfl

theorem accKeys_cons (e : AccEntry) (l : List AccEntry) :
    accKeys (e :: l) = e.key :: accKeys l := rfl

theorem lookupKey_bump_self (key name : String) (dur : Nat) (acc : List AccEntry) :
    lookupKey (bump key name dur acc) key =
      some (match lookupKey acc key with
        | some e => { e with totalSeconds := e.totalSeconds + dur, count := e.count + 1 }
        | none => ⟨key, name, dur, 1⟩) := by
  induction acc with
  | nil =>
    simp [bump, lookupKey_cons, show lookupKey ([] : List AccEntry) key = none from rfl]
  | cons e rest ih =>
    by_cases h : e.key = key
    · simp [bump, h, lookupKey_cons]
    · simp only [bump, if_neg h, lookupKey_cons]
      exact ih

theorem lookupKey_bump_ne (key name : String) (dur : Nat) (acc : List AccEntry)
    (k : String) (hk : k ≠ key) :
    lookupKey (bump key name dur acc) k = lookupKey acc k := by
  induction acc with
  | nil =>
    have hkk : ¬ key = k := fun he => hk he.symm
    simp [bump, lookupKey_cons, hkk, lookupKey]
  | cons e rest ih =>
    by_cases h : e.key = key
    · have hek : ¬ e.key = k := fun he => hk (he.symm.trans h)
      simp only [bump, if_pos h, lookupKey_cons]
      rw [if_neg hek, if_neg hek]
    · by_cases hek : e.key = k
      · simp only [bump, if_neg h, lookupKey_cons]
        rw [if_pos hek, if_pos hek]
      · simp only [bump, if_neg h, lookupKey_cons]
        rw [if_neg hek, if_neg hek]
        exact ih

theorem lookupKey_taskFold (l : List Session) : ∀ (acc : List AccEntry) (k : String),
    lookupKey (l.foldl (fun a s => bump (jsToLower s.note) s.note s.durationSeconds a) acc) k =
      match lookupKey acc k with
      | some e =>
          some { e with totalSeconds := e.totalSeconds + keyTotal l k,
                        count := e.count + keyCount l k }
      | none =>
          match keyName l k with
          | some n => some ⟨k, n, keyTotal l k, keyCount l k⟩
          | none => none := by
  induction l with
  | nil =>
    intro acc k
    cases h : lookupKey acc k <;> simp [keyTotal, keyCount, keyName, h]
  | cons s t ih =>
    intro acc k
    rw [List.foldl_cons, ih]
    by_cases h : jsToLower s.note = k
    · rw [h, lookupKey_bump_self]
      have ht : keyTotal (s :: t) k = s.durationSeconds + keyTotal t k := by
        simp [keyTotal, List.filter_cons, h]
      have hc : keyCount (s :: t) k = 1 + keyCount t k := by
        simp [keyCount, List.filter_cons, h, Nat.add_comm]
      have hn : keyName (s :: t) k = some s.note := by
        simp only [keyName]
        rw [List.find?_cons_of_pos _ (by simp [h])]
        rfl
      cases hl : lookupKey acc k
      · simp [hl, ht, hc, hn]
      · simp [hl, ht, hc, hn, AccEntry.mk.injEq]
        omega
    · rw [lookupKey_bump_ne _ _ _ _ _ fun he => h he.symm]
      have ht : keyTotal (s :: t) k = keyTotal t k := by
        simp [keyTotal, List.filter_cons, h]
      have hc : keyCount (s :: t) k = keyCount t k := by
        simp [keyCount, List.filter_cons, h]
      have hn : keyName (s :: t) k = keyName t k := by
        simp only [keyName]
        rw [List.find?_cons_of_neg _ (by simp [h])]
      rw [ht, hc, hn]

theorem accKeys_bump (key name : String) (dur : Nat) (acc : List AccEntry) :
    accKeys (bump key name dur acc) =
      if key ∈ accKeys acc then accKeys acc else accKeys acc ++ [key] := by
  induction acc with
  | nil => simp [bump, accKeys]
  | cons e rest ih =>
    by_cases h : e.key = key
    · have hm : key ∈ accKeys (e :: rest) := by
        rw [accKeys_cons, ← h]
        exact List.mem_cons_self _ _
      rw [if_pos hm]
      simp only [bump, if_pos h, accKeys_cons]
    · simp only [bump, if_neg h, accKeys_cons, ih]
      by_cases hm : key ∈ accKeys rest
      · rw [if_pos hm, if_pos (List.mem_cons_of_mem _ hm)]
      · have hm2 : ¬ key ∈ e.key :: accKeys rest := by
          intro hx
          rcases List.mem_cons.mp hx with hx | hx
          · exact h hx.symm
          · exact hm hx
        rw [if_neg hm, if_neg hm2]
        rfl

theorem accKeys_taskFold_nodup (l : List Session) :
    ∀ acc : List AccEntry, (accKeys acc).Nodup →
      (accKeys (l.foldl
        (fun a s => bump (jsToLower s.note) s.note s.durationSeconds a) acc)).Nodup := by
  induction l with
  | nil => intro acc h; simpa using h
  | cons s t ih =>
    intro acc h
    rw [List.foldl_cons]
    apply ih
    rw [accKeys_bump]
    by_cases hm : jsToLower s.note ∈ accKeys acc
    · simpa [hm] using h
    · rw [if_neg hm]
      simp [List.nodup_append, h, hm]

theorem lookupKey_self_of_nodup :
    ∀ acc : List AccEntry, (accKeys acc).Nodup →
      ∀ t ∈ acc, lookupKey acc t.key = some t := by
  intro acc
  induction acc with
  | nil => intro _ t ht; simp at ht
  | cons e rest ih =>
    intro hnd t ht
    have hnd2 : e.key ∉ accKeys rest ∧ (accKeys rest).Nodup := by
      simpa [accKeys, List.nodup_cons] using hnd
    rw [List.mem_cons] at ht
    rcases ht with ht | ht
    · subst ht
      rw [lookupKey_cons, if_pos rfl]
    · have hne : ¬ e.key = t.key := by
        intro he
        exact hnd2.1 (he ▸ List.mem_map_of_mem AccEntry.key ht)
      rw [lookupKey_cons, if_neg hne]
      exact ih hnd2.2 t ht

/-- C2: per-task statistics group sessions by the lowercased note.  For
every key that occurs, `taskStats` holds an entry whose `name` is the
note of the first session (in current list order) establishing the
group, whose `totalSeconds` and `count` are the group's summed duration
and size, and whose `averageSeconds` is their quotient; conversely every
`taskStats` entry arises that way; and on
`[⟨"Read", 60⟩, ⟨"read", 120⟩]` there is exactly one group with count 2,
total 180 and average 90. -/
theorem taskStats_spec :
    (∀ (l : List Session) (k n : String), keyName l k = some n →
      ∃ t ∈ taskStats l, t.name = n ∧ t.totalSeconds = keyTotal l k
        ∧ t.count = keyCount l k
        ∧ t.averageSeconds = (keyTotal l k : ℚ) / (keyCount l k : ℚ))
    ∧ (∀ (l : List Session) (t : TaskStat), t ∈ taskStats l →
      ∃ k, keyName l k = some t.name ∧ t.totalSeconds = keyTotal l k
        ∧ t.count = keyCount l k
        ∧ t.averageSeconds = (t.totalSeconds : ℚ) / (t.count : ℚ))
    ∧ taskStats [⟨1, "Read", 60, "d1"⟩, ⟨2, "read", 120, "d2"⟩]
        = [⟨"Read", 180, 2, 90⟩] := by
  refine ⟨?_, ?_, ?_⟩
  · intro l k n hn
    have h : lookupKey (taskStatsMap l) k =
        (match keyName l k with
          | some n => some ⟨k, n, keyTotal l k, keyCount l k⟩
          | none => none) := lookupKey_taskFold l [] k
    rw [hn] at h
    have hmem : (⟨k, n, keyTotal l k, keyCount l k⟩ : AccEntry) ∈ taskStatsMap l :=
      List.mem_of_find?_eq_some h
    exact ⟨⟨n, keyTotal l k, keyCount l k, (keyTotal l k : ℚ) / (keyCount l k : ℚ)⟩,
      List.mem_map_of_mem _ hmem, rfl, rfl, rfl, rfl⟩
  · intro l t ht
    rcases List.mem_map.mp ht with ⟨a, ha, hav⟩
    obtain ⟨ak, an, atot, acnt⟩ := a
    dsimp only at hav
    subst hav
    have hnd : (accKeys (taskStatsMap l)).Nodup :=
      accKeys_taskFold_nodup l [] (by simp [accKeys])
    have hself : lookupKey (taskStatsMap l) ak = some ⟨ak, an, atot, acnt⟩ :=
      lookupKey_self_of_nodup (taskStatsMap l) hnd ⟨ak, an, atot, acnt⟩ ha
    have h : lookupKey (taskStatsMap l) ak =
        (match keyName l ak with
          | some n => some ⟨ak, n, keyTotal l ak, keyCount l ak⟩
          | none => none) := lookupKey_taskFold l [] ak
    rw [hself] at h
    cases hkn : keyName l ak with
    | none =>
      rw [hkn] at h
      simp at h
    | some n =>
      rw [hkn] at h
      have hfields : an = n ∧ atot = keyTotal l ak ∧ acnt = keyCount l ak := by
        simpa [AccEntry.mk.injEq] using h
      refine ⟨ak, ?_, ?_, ?_, rfl⟩
      · rw [hkn, hfields.1]
      · exact hfields.2.1
      · exact hfields.2.2
  · have hm : taskStatsMap [⟨1, "Read", 60, "d1"⟩, ⟨2, "read", 120, "d2"⟩]
        = [⟨"read", "Read", 180, 2⟩] := by decide
    simp only [taskStats, hm, List.map]
    norm_num [TaskStat.mk.injEq]

theorem taskStats_spec_witness :
    ∃ t ∈ taskStats [⟨1, "Read", 60, "d1"⟩, ⟨2, "read", 120, "d2"⟩],
      t.name = "Read"
        ∧ t.totalSeconds = keyTotal [⟨1, "Read", 60, "d1"⟩, ⟨2, "read", 120, "d2"⟩] "read"
        ∧ t.count = keyCount [⟨1, "Read", 60, "d1"⟩, ⟨2, "read", 120, "d2"⟩] "read"
        ∧ t.averageSeconds =
            (keyTotal [⟨1, "Read", 60, "d1"⟩, ⟨2, "read", 120, "d2"⟩] "read" : ℚ)
              / (keyCount [⟨1, "Read", 60, "d1"⟩, ⟨2, "read", 120, "d2"⟩] "read" : ℚ) :=
  taskStats_spec.1 [⟨1, "Read", 60, "d1"⟩, ⟨2, "read", 120, "d2"⟩] "read" "Read" (by decide)

/-- C7: the initial load never crashes on a bad sessions value: when the
sessions key is absent, when the store read throws, and when the stored
string is malformed (so `JSON.parse` throws), the loaded session list is
the fresh empty array, and the aggregate computations on an empty list
all yield empty or zero results rather than an error. -/
theorem load_malformed_recovers (themeRead : ReadResult)
    (parse : String → ParseOutcome) (s : String)
    (dateOf : String → String) (todayStr : String) :
    (initialLoad themeRead ReadResult.absent parse freshLoadedState).sessionsJ = Json.arr []
    ∧ (initialLoad themeRead ReadResult.throws parse freshLoadedState).sessionsJ = Json.arr []
    ∧ (parse s = ParseOutcome.err →
        (initialLoad themeRead (ReadResult.val s) parse
          freshLoadedState).sessionsJ = Json.arr [])
    ∧ taskStats [] = []
    ∧ totalSecondsToday dateOf todayStr [] = 0
    ∧ tasksTodayCount dateOf todayStr [] = 0 := by
  refine ⟨?_, ?_, ?_, rfl, rfl, rfl⟩
  · cases themeRead with
    | throws => rfl
    | absent => rfl
    | val sv =>
      simp only [initialLoad, loadSessionsInto]
      split <;> rfl
  · cases themeRead with
    | throws => rfl
    | absent => rfl
    | val sv =>
      simp only [initialLoad, loadSessionsInto]
      split <;> rfl
  · intro hp
    cases themeRead with
    | throws => rfl
    | absent =>
      simp only [initialLoad, loadSessionsInto]
      by_cases hs : s = ""
      · simp [hs, freshLoadedState]
      · simp [hs, hp, freshLoadedState]
    | val sv =>
      simp only [initialLoad, loadSessionsInto]
      by_cases hs : s = ""
      · simp only [if_pos hs]
        split <;> rfl
      · simp only [if_neg hs, hp]
        split <;> rfl

theorem load_malformed_recovers_witness :
    (initialLoad ReadResult.absent (ReadResult.val "not json")
        (fun _ => ParseOutcome.err) freshLoadedState).sessionsJ = Json.arr [] :=
  (load_malformed_recovers ReadResult.absent (fun _ => ParseOutcome.err) "not json"
      (fun d => d) "x").2.2.1 rfl

/-- C10: on initial load, any non-empty stored sessions string that
`JSON.parse` accepts is installed verbatim as the session list —
whatever value the parse produced, with no validation or normalization
of the records (the witness installs records with a duplicate id, a
negative duration, and missing fields). -/
theorem load_installs_verbatim (themeRead : ReadResult)
    (hth : themeRead ≠ ReadResult.throws)
    (parse : String → ParseOutcome) (s : String) (j : Json)
    (hs : s ≠ "") (hp : parse s = ParseOutcome.ok j) :
    (initialLoad themeRead (ReadResult.val s) parse freshLoadedState).sessionsJ = j := by
  cases themeRead with
  | throws => exact absurd rfl hth
  | absent =>
    simp only [initialLoad, loadSessionsInto]
    simp [hs, hp]
  | val sv =>
    simp only [initialLoad, loadSessionsInto]
    simp [hs, hp]

theorem load_installs_verbatim_witness :
    (initialLoad ReadResult.absent (ReadResult.val "X")
        (fun t => if t = "X"
          then ParseOutcome.ok (Json.arr
            [Json.obj [("id", Json.num 1), ("durationSeconds", Json.num (-5))],
             Json.obj [("id", Json.num 1)]])
          else ParseOutcome.err)
        freshLoadedState).sessionsJ
      = Json.arr [Json.obj [("id", Json.num 1), ("durationSeconds", Json.num (-5))],
          Json.obj [("id", Json.num 1)]] :=
  load_installs_verbatim ReadResult.absent (by decide)
    (fun t => if t = "X"
      then ParseOutcome.ok (Json.arr
        [Json.obj [("id", Json.num 1), ("durationSeconds", Json.num (-5))],
         Json.obj [("id", Json.num 1)]])
      else ParseOutcome.err)
    "X" _ (by decide) rfl

/-- C6: `handleClearAll` empties the session list and its store
operation is exactly one remove of the sessions key — not a write of
the string "[]" — leaving the key absent and every other key untouched;
and, granted that `JSON.parse "[]"` is the empty array, a reload from
the cleared store, from a fresh store, and from a store holding "[]"
all observe the same empty session list. -/
theorem clearAll_spec (st : AppState) (store : Store)
    (parse : String → ParseOutcome)
    (hp : parse "[]" = ParseOutcome.ok (Json.arr [])) :
    (handleClearAll st store).1.sessions = []
    ∧ clearAllStoreOps = [StoreOp.remove "quicknote_sessions"]
    ∧ (∀ v, StoreOp.set "quicknote_sessions" v ∉ clearAllStoreOps)
    ∧ (handleClearAll st store).2 "quicknote_sessions" = none
    ∧ (∀ k, k ≠ "quicknote_sessions" → (handleClearAll st store).2 k = store k)
    ∧ reloadSessions (handleClearAll st store).2 parse = Json.arr []
    ∧ reloadSessions (handleClearAll st store).2 parse = reloadSessions emptyStore parse
    ∧ reloadSessions (setItem store "quicknote_sessions" "[]") parse
        = reloadSessions (handleClearAll st store).2 parse := by
  have h6 : reloadSessions (handleClearAll st store).2 parse = Json.arr [] := by
    simp [reloadSessions, readSessionsKey, handleClearAll, removeItem,
      loadSessionsInto, freshLoadedState]
  have h0 : reloadSessions emptyStore parse = Json.arr [] := rfl
  have h8 : reloadSessions (setItem store "quicknote_sessions" "[]") parse
      = Json.arr [] := by
    simp [reloadSessions, readSessionsKey, setItem, loadSessionsInto,
      freshLoadedState, hp]
  refine ⟨rfl, rfl, ?_, ?_, ?_, h6, h6.trans h0.symm, h8.trans h6.symm⟩
  · intro v hv
    simp [clearAllStoreOps] at hv
  · simp [handleClearAll, removeItem]
  · intro k hk
    simp [handleClearAll, removeItem, hk]

theorem clearAll_spec_witness :
    reloadSessions
        (handleClearAll ⟨0, false, "", [⟨1, "a", 5, "t"⟩]⟩
          (setItem emptyStore "quicknote_sessions" "stuff")).2
        (fun t => if t = "[]" then ParseOutcome.ok (Json.arr []) else ParseOutcome.err)
      = Json.arr [] :=
  (clearAll_spec ⟨0, false, "", [⟨1, "a", 5, "t"⟩]⟩
      (setItem emptyStore "quicknote_sessions" "stuff")
      (fun t => if t = "[]" then ParseOutcome.ok (Json.arr []) else ParseOutcome.err)
      rfl).2.2.2.2.2.1

theorem themeReachable_values (t : String) (h : ThemeReachable t) :
    t = "dark" ∨ t = "light" := by
  induction h with
  | init => exact Or.inl rfl
  | load stored t0 h0 ih =>
    cases stored with
    | none => exact ih
    | some s =>
      by_cases hs : s = "light" ∨ s = "dark"
      · rcases hs with hs | hs
        · exact Or.inr (by simp [loadTheme, hs])
        · exact Or.inl (by simp [loadTheme, hs])
      · rw [show loadTheme (some s) t0 = t0 from by simp [loadTheme, hs]]
        exact ih
  | toggle t0 h0 ih =>
    by_cases hd : t0 = "dark"
    · exact Or.inr (by simp [toggleThemeStr, hd])
    · exact Or.inl (by simp [toggleThemeStr, hd])

/-- C8 (amended): every read and write the component performs against
the persistence layer is under exactly the keys "quicknote_theme" and
"quicknote_sessions" (not "theme" and "sessions"); every value written
under the theme key is exactly "dark" or "light", and every value
written under the sessions key is the JSON-encoded session array. -/
theorem storage_keys_spec (t : String) (ht : ThemeReachable t)
    (sessions : List Session) :
    (∀ op ∈ componentOps t sessions,
        op.key = "quicknote_theme" ∨ op.key = "quicknote_sessions")
    ∧ (∀ v, StoreOp.set "quicknote_theme" v ∈ componentOps t sessions →
        v = "dark" ∨ v = "light")
    ∧ (∀ v, StoreOp.set "quicknote_sessions" v ∈ componentOps t sessions →
        v = stringifySessions sessions) := by
  refine ⟨?_, ?_, ?_⟩
  · intro op hop
    simp only [componentOps, initialLoadOps, persistThemeOps, persistSessionsOps,
      clearAllStoreOps, List.mem_append, List.mem_singleton, List.mem_cons,
      List.not_mem_nil, or_false] at hop
    rcases hop with (((h | h) | h) | h) | h <;> subst h <;>
      simp [StoreOp.key]
  · intro v hv
    simp only [componentOps, initialLoadOps, persistThemeOps, persistSessionsOps,
      clearAllStoreOps, List.mem_append, List.mem_singleton, List.mem_cons,
      List.not_mem_nil, or_false] at hv
    rcases hv with (((h | h) | h) | h) | h
    · exact absurd h (by simp)
    · exact absurd h (by simp)
    · injection h with h1 h2
      subst h2
      exact themeReachable_values _ ht
    · injection h with h1 h2
      exact absurd h1 (by decide)
    · exact absurd h (by simp)
  · intro v hv
    simp only [componentOps, initialLoadOps, persistThemeOps, persistSessionsOps,
      clearAllStoreOps, List.mem_append, List.mem_singleton, List.mem_cons,
      List.not_mem_nil, or_false] at hv
    rcases hv with (((h | h) | h) | h) | h
    · exact absurd h (by simp)
    · exact absurd h (by simp)
    · injection h with h1 h2
      exact absurd h1 (by decide)
    · injection h with h1 h2
    · exact absurd h (by simp)

theorem storage_keys_spec_witness :
    StoreOp.key (StoreOp.set "quicknote_theme" "dark") = "quicknote_theme"
      ∨ StoreOp.key (StoreOp.set "quicknote_theme" "dark") = "quicknote_sessions" :=
  (storage_keys_spec "dark" ThemeReachable.init []).1
    (StoreOp.set "quicknote_theme" "dark") (by decide)

/-- C8 counterexample: the claim's key names are wrong — no store access
of the component uses the key "theme" or the key "sessions"; the theme
persist effect, for instance, writes under "quicknote_theme". -/
theorem storage_keys_not_theme :
    persistThemeOps "dark" = [StoreOp.set "quicknote_theme" "dark"]
    ∧ (∀ op ∈ componentOps "dark" [],
        ¬ StoreOp.key op = "theme" ∧ ¬ StoreOp.key op = "sessions") := by
  exact ⟨rfl, by decide⟩

end QuickNote
